import Mathlib

set_option maxRecDepth 100000

/-!
Verification of the in-memory inverted index / vector-space scorer of
`apps/information-retrieval/Vector Space.ipynb` (class `IrIndex` with
`index_document`, `create_tf_dictionary`, `create_tfidf_list`,
`vector_space_search`).

Modelling conventions (shallow embedding of the Python 2 code):

* Python dicts are modelled as insertion-ordered association lists
  (`List (κ × β)`).  CPython 2 iterates a dict in hash order; every property
  proved below is insensitive to the iteration order (the spec declares the
  result ordering unspecified), and the two iterations of the query dict that
  the scorer aligns positionally (`iterkeys`/`itervalues`) use one and the
  same dict, hence one and the same order, in both the code and the model.
* Python floats are modelled as elements of an arbitrary semiring `α`; the
  expression `log(float(len(documents)) / float(len(index[term])))` is
  abstracted as a parameter `lg : ℕ → ℕ → α` applied to
  (`len(documents)`, `len(index[term])`).  Where a claim speaks about the
  natural logarithm, `α` is instantiated with `ℝ` and `lg` with `realLg`,
  i.e. `Real.log (n / df)` over the reals.
* `self.vectors[post]` / `self.documents[post]` (which raise `IndexError`
  when out of range in Python) are modelled with `List.getD` and a default;
  the range invariant proved for reachable states shows the default is never
  consulted during a search.
* `re.split` and `str.count` are embedded character by character with
  Python 2 semantics, see `patternSplit` and `pyCount` below.
-/

/-- Python 2 `\s` on a `str` (ASCII): space, tab, newline, carriage return,
vertical tab, form feed. -/
def isPySpace (c : Char) : Bool :=
  c == ' ' || c == '\t' || c == '\n' || c == '\r' || c == '\x0b' || c == '\x0c'

/-- Characters that can start a nonempty match of the middle alternative
`\s*,*\s*` of the tokenizer pattern. -/
def isSepChar (c : Char) : Bool :=
  isPySpace c || c == ','

/-- Length of the (greedy) match of the middle alternative `\s*,*\s*` of
`IrIndex.pattern` at the head of `cs`: a maximal whitespace run, then a
maximal comma run, then a maximal whitespace run. -/
def midMatchLen (cs : List Char) : ℕ :=
  let w1 := (cs.takeWhile isPySpace).length
  let r1 := cs.drop w1
  let cm := (r1.takeWhile (fun c => c == ',')).length
  let r2 := r1.drop cm
  w1 + cm + (r2.takeWhile isPySpace).length

theorem midMatchLen_pos {c : Char} (cs : List Char) (h : isSepChar c = true) :
    1 ≤ midMatchLen (c :: cs) := by
  rcases Bool.or_eq_true_iff.mp h with hw | hc
  · have : (List.takeWhile isPySpace (c :: cs)).length ≥ 1 := by
      simp [List.takeWhile, hw]
    simp only [midMatchLen]
    omega
  · by_cases hw : isPySpace c = true
    · have : (List.takeWhile isPySpace (c :: cs)).length ≥ 1 := by
        simp [List.takeWhile, hw]
      simp only [midMatchLen]
      omega
    · simp only [midMatchLen, List.takeWhile, hw, Bool.false_eq_true,
        List.length_nil, List.drop_zero, hc, List.length_cons]
      omega

/-- Scanning loop of Python 2 `re.split` for `IrIndex.pattern` past position
0: at a position whose character cannot start a nonempty match the (empty)
match is skipped and the character is accumulated into the current token; at
a separator character the pending token is emitted and the greedy match of
`\s*,*\s*` is consumed.  `cur` holds the pending token, reversed.  The first
argument is fuel making the recursion structural (so that the kernel can
evaluate it); every step consumes at least one character, so with initial
fuel equal to the input length the fuel-exhausted case is unreachable. -/
def splitAux : ℕ → List Char → List Char → List String
  | _, [], cur => [String.mk cur.reverse]
  | 0, _ :: _, cur => [String.mk cur.reverse]
  | fuel + 1, c :: cs, cur =>
    if isSepChar c then
      String.mk cur.reverse :: splitAux fuel ((c :: cs).drop (midMatchLen (c :: cs))) []
    else
      splitAux fuel cs (c :: cur)

/-- Tokenizer `IrIndex.pattern.split` — Python 2 `re.split` with the pattern
`^\s+|\s*,*\s*|\s+$`.  The first alternative is preferred at position 0 when
the string starts with whitespace and consumes only that whitespace run
(emitting a leading empty token); everywhere else only the middle
alternative can match nonemptily (the third is subsumed by the second), and
empty matches never split (Python 2 semantics). -/
def patternSplit (s : String) : List String :=
  match s.data with
  | [] => splitAux 0 [] []
  | c :: cs =>
    if isPySpace c then
      "" :: splitAux (c :: cs).length ((c :: cs).drop (((c :: cs).takeWhile isPySpace).length)) []
    else
      splitAux (c :: cs).length (c :: cs) []

/-- Auxiliary loop for Python `str.count`: left-to-right scan counting
non-overlapping occurrences of `sub` (assumed nonempty at call sites).  The
numeric argument is structural fuel; every step consumes at least one
character of the haystack, so with initial fuel equal to the haystack length
the fuel-exhausted case is unreachable. -/
def pyCountAux (sub : List Char) : ℕ → List Char → ℕ
  | _, [] => 0
  | 0, _ :: _ => 0
  | fuel + 1, c :: rest =>
    if sub.isPrefixOf (c :: rest) then 1 + pyCountAux sub fuel (rest.drop (sub.length - 1))
    else pyCountAux sub fuel rest

/-- Python 2 `s.count(sub)`: number of non-overlapping occurrences of the
substring `sub` in `s`; for the empty substring Python returns
`len(s) + 1`. -/
def pyCount (s sub : String) : ℕ :=
  if sub.data.isEmpty then s.data.length + 1 else pyCountAux sub.data s.data.length s.data

/-- Python dict assignment `d[k] = v` on an insertion-ordered association
list: replace the value at an existing key in place, otherwise append the
new key at the end. -/
def dictInsert {κ β : Type} [BEq κ] : List (κ × β) → κ → β → List (κ × β)
  | [], k, v => [(k, v)]
  | (k', v') :: rest, k, v =>
    if k' == k then (k', v) :: rest else (k', v') :: dictInsert rest k v

/-- The state of an `IrIndex` object: `index` maps a term to its posting
list, `documents` stores the raw texts, `vectors` the per-document raw
term-frequency dictionaries. -/
structure IrIndex where
  index : List (String × List ℕ)
  documents : List String
  vectors : List (List (String × ℕ))
  deriving Inhabited, DecidableEq

/-- The freshly constructed index (`IrIndex.__init__`). -/
def emptyIndex : IrIndex :=
  { index := [], documents := [], vectors := [] }

/-- Body of the `for term in terms` loop of `index_document`: extend the
posting list of `term` with `document_pos` (creating it when absent) and
increment the document vector entry for `term` (creating it at 1). -/
def indexTermsLoop (document_pos : ℕ) :
    List String → List (String × List ℕ) → List (String × ℕ) →
    List (String × List ℕ) × List (String × ℕ)
  | [], idx, vec => (idx, vec)
  | term :: rest, idx, vec =>
    let idx1 := if (idx.lookup term).isSome then idx else dictInsert idx term []
    let idx2 := dictInsert idx1 term (((idx1.lookup term).getD []) ++ [document_pos])
    let vec1 := if (vec.lookup term).isSome
      then dictInsert vec term (((vec.lookup term).getD 0) + 1)
      else dictInsert vec term 1
    indexTermsLoop document_pos rest idx2 vec1

/-- Method `IrIndex.index_document`: tokenize, append the text to the document
store, set `document_pos = len(documents) - 1`, run the term loop, append
the new vector.  The Python method ends without a `return` statement, so its
return value is `None`, modelled by the second component `none` (a faithful
implementation of the spec's signature would return `some document_pos`). -/
def index_document (s : IrIndex) (document : String) : IrIndex × Option ℕ :=
  let terms := patternSplit document
  let documents := s.documents ++ [document]
  let document_pos := documents.length - 1
  let r := indexTermsLoop document_pos terms s.index []
  ({ index := r.1, documents := documents, vectors := s.vectors ++ [r.2] }, none)

/-- State reached from a fresh index after indexing the given documents in
order (the quantifier "after any sequence of `index_document` calls"). -/
def indexAll (docs : List String) : IrIndex :=
  docs.foldl (fun s d => (index_document s d).1) emptyIndex

/-- Posting list of a term as read by the code (`self.index[term]`, guarded
by `term in self.index`; the default `[]` is never consulted at guarded
call sites). -/
def posting (s : IrIndex) (t : String) : List ℕ :=
  (s.index.lookup t).getD []

/-- Raw term frequency of term `t` in document `d`'s stored vector (0 when
absent). -/
def tfOf (s : IrIndex) (d : ℕ) (t : String) : ℕ :=
  ((s.vectors.getD d []).lookup t).getD 0

/-- Method `IrIndex.create_tf_dictionary`: for each token of the query, if not yet
present, map it to `terms.count(term)` — Python `str.count`, i.e. the number
of occurrences of the token as a substring of the raw query string. -/
def create_tf_dictionary (terms : String) : List (String × ℕ) :=
  (patternSplit terms).foldl
    (fun res term =>
      if (res.lookup term).isSome then res
      else dictInsert res term (pyCount terms term))
    []

/-- Function `IrIndex.create_tfidf_list` called with one argument (the branch
`len(args) == 1`): the list of the raw tf values of the dictionary, in
iteration order, with no idf weighting applied. -/
def create_tfidf_list1 (α : Type) [Semiring α] (d : List (String × ℕ)) : List α :=
  d.map (fun e => (e.2 : α))

/-- Function `IrIndex.create_tfidf_list` called with two arguments (the branch
`len(args) == 2`): for each key of the first dictionary in iteration order,
if present in the second, `args[1][term] * log(len(documents)/len(index[term]))`,
else `0`.  `lg n df` stands for `log(float(n) / float(df))`. -/
def create_tfidf_list2 {α : Type} [Semiring α] (lg : ℕ → ℕ → α) (s : IrIndex)
    (qd : List (String × ℕ)) (dv : List (String × ℕ)) : List α :=
  qd.map (fun e =>
    if ((dv.lookup e.1).isSome) then
      ((dv.lookup e.1).getD 0 : α) * lg s.documents.length (posting s e.1).length
    else 0)

/-- Embedding of `numpy.dot` on two equal-length one-dimensional arrays. -/
def dotList {α : Type} [Semiring α] (xs ys : List α) : α :=
  (List.zipWith (fun a b => a * b) xs ys).sum

/-- Inner loop of `vector_space_search` over `self.index[term]`: record the
tf-idf list of each not-yet-seen hitting document. -/
def hitsLoopPosts {α : Type} [Semiring α] (lg : ℕ → ℕ → α) (s : IrIndex)
    (qd : List (String × ℕ)) (posts : List ℕ) (hits : List (ℕ × List α)) :
    List (ℕ × List α) :=
  posts.foldl
    (fun hits post =>
      if (hits.lookup post).isSome then hits
      else dictInsert hits post (create_tfidf_list2 lg s qd (s.vectors.getD post [])))
    hits

/-- Outer loop of `vector_space_search` over `hitting_terms`. -/
def hitsLoop {α : Type} [Semiring α] (lg : ℕ → ℕ → α) (s : IrIndex)
    (qd : List (String × ℕ)) (terms : List String) (hits : List (ℕ × List α)) :
    List (ℕ × List α) :=
  terms.foldl (fun hits term => hitsLoopPosts lg s qd (posting s term) hits) hits

/-- Method `IrIndex.vector_space_search`: build the query tf dictionary and its
(one-argument, hence unweighted) tf-idf list, collect each document hit by a
query term present in the index, give it the two-argument tf-idf list over
the query dimensions, and emit `(dot product, original text)` pairs. -/
def vector_space_search {α : Type} [Semiring α] (lg : ℕ → ℕ → α) (s : IrIndex)
    (terms : String) : List (α × String) :=
  let terms_tf_dictionary := create_tf_dictionary terms
  let terms_tfidf_list := create_tfidf_list1 α terms_tf_dictionary
  let hitting_terms := (patternSplit terms).filter (fun t => (s.index.lookup t).isSome)
  let hits := hitsLoop lg s terms_tf_dictionary hitting_terms []
  hits.map (fun p => (dotList terms_tfidf_list p.2, s.documents.getD p.1 ""))

/-- The idf abstraction instantiated over the reals:
`log(float(n) / float(df))` with mathematical division and natural
logarithm. -/
noncomputable def realLg (n df : ℕ) : ℝ :=
  Real.log ((n : ℝ) / (df : ℝ))

/-- Modelled from the spec (§4.3 step 2): the query tf-idf vector that the
spec prescribes, with idf weighting applied on the query side — for each
term of the query dictionary, `Q_tf[term] * lg N df(term)` when the term is
in the index, else `0`.  Compared against the code's one-argument
`create_tfidf_list`, which applies no weighting. -/
def spec_query_tfidf {α : Type} [Semiring α] (lg : ℕ → ℕ → α) (s : IrIndex)
    (qd : List (String × ℕ)) : List α :=
  qd.map (fun e =>
    if (s.index.lookup e.1).isSome then
      (e.2 : α) * lg s.documents.length (posting s e.1).length
    else 0)

/-- Modelled from the spec (§3 "Query vector"): a mapping from each distinct
token of the query to the number of occurrences of that token in the token
sequence produced by the tokenizer.  Compared against the code's
`create_tf_dictionary`, which counts substring occurrences in the raw
query text. -/
def spec_tf_dictionary (terms : String) : List (String × ℕ) :=
  (patternSplit terms).foldl
    (fun res term =>
      if (res.lookup term).isSome then res
      else dictInsert res term ((patternSplit terms).count term))
    []

section Lemmas

variable {κ β : Type} [BEq κ] [LawfulBEq κ] [DecidableEq κ]

theorem lookup_dictInsert (d : List (κ × β)) (k k' : κ) (v : β) :
    (dictInsert d k v).lookup k' = if k' = k then some v else d.lookup k' := by
  induction d with
  | nil =>
    by_cases h : k' = k
    · simp [dictInsert, List.lookup, h]
    · simp [dictInsert, List.lookup, h, beq_eq_false_iff_ne.mpr h]
  | cons e rest ih =>
    obtain ⟨k1, v1⟩ := e
    by_cases h1 : k1 = k
    · subst h1
      by_cases h : k' = k1
      · simp [dictInsert, List.lookup, h]
      · simp [dictInsert, List.lookup, h, beq_eq_false_iff_ne.mpr h]
    · by_cases h : k' = k1
      · subst h
        have hk : ¬ k' = k := h1
        simp [dictInsert, List.lookup, beq_eq_false_iff_ne.mpr h1, hk]
      · simp [dictInsert, List.lookup, beq_eq_false_iff_ne.mpr h1,
          beq_eq_false_iff_ne.mpr h, h, ih]

theorem mem_dictInsert {d : List (κ × β)} {k : κ} {v : β} {p : κ × β}
    (h : p ∈ dictInsert d k v) : p ∈ d ∨ p = (k, v) := by
  induction d with
  | nil => simpa [dictInsert] using h
  | cons e rest ih =>
    obtain ⟨k1, v1⟩ := e
    by_cases h1 : k1 = k
    · subst h1
      simp only [dictInsert, beq_self_eq_true, if_true, List.mem_cons] at h
      rcases h with h | h
      · exact Or.inr (by simp [h])
      · exact Or.inl (List.mem_cons_of_mem _ h)
    · simp only [dictInsert, beq_eq_false_iff_ne.mpr h1, Bool.false_eq_true,
        if_false, List.mem_cons] at h
      rcases h with h | h
      · exact Or.inl (by simp [h])
      · rcases ih h with h' | h'
        · exact Or.inl (List.mem_cons_of_mem _ h')
        · exact Or.inr h'

theorem foldl_congr_mem {γ δ : Type} (f g : δ → γ → δ) (l : List γ) (b : δ)
    (h : ∀ acc x, x ∈ l → f acc x = g acc x) : l.foldl f b = l.foldl g b := by
  induction l generalizing b with
  | nil => rfl
  | cons x xs ih =>
    simp only [List.foldl_cons]
    rw [h b x (by simp)]
    exact ih _ (fun acc y hy => h acc y (List.mem_cons_of_mem _ hy))

theorem dotList_map_map {α γ : Type} [Semiring α] (l : List γ) (f g : γ → α) :
    dotList (l.map f) (l.map g) = (l.map (fun x => f x * g x)).sum := by
  induction l with
  | nil => rfl
  | cons x xs ih =>
    simp only [List.map_cons, dotList, List.zipWith_cons_cons, List.sum_cons] at *
    rw [ih]

end Lemmas

section LoopLemmas

theorem dictInsert_step_idx (document_pos : ℕ) (term u : String)
    (idx : List (String × List ℕ)) :
    ((dictInsert (if (idx.lookup term).isSome then idx else dictInsert idx term [])
        term
        ((((if (idx.lookup term).isSome then idx else dictInsert idx term []).lookup
            term).getD []) ++ [document_pos])).lookup u).getD [] =
      if u = term then ((idx.lookup term).getD []) ++ [document_pos]
      else (idx.lookup u).getD [] := by
  rw [lookup_dictInsert]
  by_cases hu : u = term
  · subst hu
    simp only [if_true, Option.getD_some]
    by_cases hs : (idx.lookup u).isSome
    · simp [hs]
    · have h0 : idx.lookup u = none := Option.not_isSome_iff_eq_none.mp hs
      simp [hs, lookup_dictInsert, h0]
  · simp only [hu, if_false]
    by_cases hs : (idx.lookup term).isSome
    · simp [hs]
    · simp [hs, lookup_dictInsert, hu]

theorem indexTermsLoop_idx_lookup (document_pos : ℕ) (toks : List String)
    (idx : List (String × List ℕ)) (vec : List (String × ℕ)) (t : String) :
    (((indexTermsLoop document_pos toks idx vec).1).lookup t).getD [] =
      ((idx.lookup t).getD []) ++ List.replicate (toks.count t) document_pos := by
  induction toks generalizing idx vec with
  | nil => simp [indexTermsLoop]
  | cons term rest ih =>
    simp only [indexTermsLoop]
    rw [ih, dictInsert_step_idx]
    by_cases ht : t = term
    · subst ht
      simp [List.count_cons, List.append_assoc, List.replicate_succ]
    · have hne : ((t : String) == term) = false := beq_eq_false_iff_ne.mpr ht
      simp [ht, List.count_cons, hne]

theorem indexTermsLoop_idx_isSome (document_pos : ℕ) (toks : List String)
    (idx : List (String × List ℕ)) (vec : List (String × ℕ)) (t : String) :
    (((indexTermsLoop document_pos toks idx vec).1).lookup t).isSome ↔
      ((idx.lookup t).isSome ∨ t ∈ toks) := by
  induction toks generalizing idx vec with
  | nil => simp [indexTermsLoop]
  | cons term rest ih =>
    simp only [indexTermsLoop]
    rw [ih]
    constructor
    · rintro (h | h)
      · rw [lookup_dictInsert] at h
        by_cases hu : t = term
        · subst hu; simp
        · simp only [hu, if_false] at h
          by_cases hs : (idx.lookup term).isSome
          · simp only [hs, if_true] at h
            tauto
          · simp only [hs, Bool.false_eq_true, if_false] at h
            rw [lookup_dictInsert] at h
            simp only [hu, if_false] at h
            tauto
      · simp only [List.mem_cons]
        tauto
    · rintro h
      by_cases hu : t = term
      · subst hu
        left
        rw [lookup_dictInsert]
        simp
      · rcases h with h | h
        · left
          rw [lookup_dictInsert]
          simp only [hu, if_false]
          by_cases hs : (idx.lookup term).isSome
          · simp [hs, h]
          · simp [hs, lookup_dictInsert, hu, h]
        · simp only [List.mem_cons] at h
          rcases h with h | h
          · exact absurd h hu
          · tauto

theorem indexTermsLoop_vec_lookup (document_pos : ℕ) (toks : List String)
    (idx : List (String × List ℕ)) (vec : List (String × ℕ)) (t : String) :
    (((indexTermsLoop document_pos toks idx vec).2).lookup t).getD 0 =
      ((vec.lookup t).getD 0) + toks.count t := by
  induction toks generalizing idx vec with
  | nil => simp [indexTermsLoop]
  | cons term rest ih =>
    simp only [indexTermsLoop]
    rw [ih]
    have hstep :
        (((if (vec.lookup term).isSome
            then dictInsert vec term (((vec.lookup term).getD 0) + 1)
            else dictInsert vec term 1).lookup t).getD 0) =
          if t = term then ((vec.lookup term).getD 0) + 1
          else (vec.lookup t).getD 0 := by
      by_cases hs : (vec.lookup term).isSome
      · simp only [hs, if_true]
        rw [lookup_dictInsert]
        by_cases hu : t = term <;> simp [hu]
      · simp only [hs, Bool.false_eq_true, if_false]
        rw [lookup_dictInsert]
        by_cases hu : t = term
        · subst hu
          have h0 : vec.lookup t = none := Option.not_isSome_iff_eq_none.mp hs
          simp [h0]
        · simp [hu]
    rw [hstep]
    by_cases ht : t = term
    · subst ht
      simp only [if_true, List.count_cons, beq_self_eq_true, if_true]
      omega
    · have hne : ((t : String) == term) = false := beq_eq_false_iff_ne.mpr ht
      simp [ht, List.count_cons, hne]

theorem indexTermsLoop_vec_isSome (document_pos : ℕ) (toks : List String)
    (idx : List (String × List ℕ)) (vec : List (String × ℕ)) (t : String) :
    (((indexTermsLoop document_pos toks idx vec).2).lookup t).isSome ↔
      ((vec.lookup t).isSome ∨ t ∈ toks) := by
  induction toks generalizing idx vec with
  | nil => simp [indexTermsLoop]
  | cons term rest ih =>
    simp only [indexTermsLoop]
    rw [ih]
    have hstep :
        (((if (vec.lookup term).isSome
            then dictInsert vec term (((vec.lookup term).getD 0) + 1)
            else dictInsert vec term 1).lookup t).isSome) ↔
          (t = term ∨ (vec.lookup t).isSome) := by
      by_cases hs : (vec.lookup term).isSome
      · simp only [hs, if_true]
        rw [lookup_dictInsert]
        by_cases hu : t = term
        · subst hu; simp
        · simp [hu]
      · simp only [hs, Bool.false_eq_true, if_false]
        rw [lookup_dictInsert]
        by_cases hu : t = term
        · subst hu; simp
        · simp [hu]
    rw [hstep]
    simp only [List.mem_cons]
    tauto

end LoopLemmas

section StateLemmas

/-- The vector built by the term loop for the document being indexed. -/
def newVec (s : IrIndex) (doc : String) : List (String × ℕ) :=
  (indexTermsLoop s.documents.length (patternSplit doc) s.index []).2

theorem index_document_fst (s : IrIndex) (doc : String) :
    (index_document s doc).1 =
      { index := (indexTermsLoop s.documents.length (patternSplit doc) s.index []).1,
        documents := s.documents ++ [doc],
        vectors := s.vectors ++ [newVec s doc] } := by
  simp [index_document, newVec]

theorem index_document_snd (s : IrIndex) (doc : String) :
    (index_document s doc).2 = none := rfl

theorem posting_index_document (s : IrIndex) (doc t : String) :
    posting (index_document s doc).1 t =
      posting s t ++
        List.replicate ((patternSplit doc).count t) s.documents.length := by
  rw [posting, index_document_fst]
  simpa [posting] using
    indexTermsLoop_idx_lookup s.documents.length (patternSplit doc) s.index [] t

theorem newVec_lookup (s : IrIndex) (doc t : String) :
    ((newVec s doc).lookup t).getD 0 = (patternSplit doc).count t := by
  simpa using
    indexTermsLoop_vec_lookup s.documents.length (patternSplit doc) s.index [] t

theorem newVec_isSome (s : IrIndex) (doc t : String) :
    ((newVec s doc).lookup t).isSome ↔ t ∈ patternSplit doc := by
  simpa using
    indexTermsLoop_vec_isSome s.documents.length (patternSplit doc) s.index [] t

/-- The consistency and bounds invariant maintained by `index_document`:
documents and vectors stay aligned, posting-list entries are valid
document positions, a term is present in a document's vector exactly when
the document's position is in the term's posting list, and present vector
entries are positive counts. -/
structure IndexInv (s : IrIndex) : Prop where
  len_eq : s.vectors.length = s.documents.length
  posting_lt : ∀ t i, i ∈ posting s t → i < s.documents.length
  vec_mem_iff : ∀ d t, ((s.vectors.getD d []).lookup t).isSome ↔ d ∈ posting s t
  vec_pos : ∀ d t, ((s.vectors.getD d []).lookup t).isSome →
    1 ≤ ((s.vectors.getD d []).lookup t).getD 0

theorem indexInv_step (s : IrIndex) (doc : String) (h : IndexInv s) :
    IndexInv (index_document s doc).1 := by
  have hvecs : (index_document s doc).1.vectors = s.vectors ++ [newVec s doc] := by
    rw [index_document_fst]
  have hdocs : (index_document s doc).1.documents = s.documents ++ [doc] := by
    rw [index_document_fst]
  have hlen : (index_document s doc).1.documents.length = s.documents.length + 1 := by
    simp [hdocs]
  have hgetD : ∀ d : ℕ,
      ((index_document s doc).1.vectors.getD d []) =
        if d < s.vectors.length then s.vectors.getD d []
        else if d = s.vectors.length then newVec s doc else [] := by
    intro d
    rw [hvecs]
    rcases Nat.lt_trichotomy d s.vectors.length with hd | hd | hd
    · rw [List.getD_append _ _ _ _ hd, if_pos hd]
    · subst hd
      rw [List.getD_append_right _ _ _ _ (le_refl _)]
      simp
    · rw [List.getD_append_right _ _ _ _ (le_of_lt hd)]
      rw [if_neg (by omega), if_neg (by omega)]
      exact List.getD_eq_default _ _ (by simp; omega)
  constructor
  · simp [hvecs, hdocs, h.len_eq]
  · intro t i hi
    rw [posting_index_document] at hi
    rw [hlen]
    rcases List.mem_append.mp hi with hi | hi
    · exact lt_trans (h.posting_lt t i hi) (by omega)
    · have := List.eq_of_mem_replicate hi
      omega
  · intro d t
    rw [hgetD, posting_index_document]
    rcases Nat.lt_trichotomy d s.vectors.length with hd | hd | hd
    · rw [if_pos hd]
      rw [h.vec_mem_iff d t]
      constructor
      · intro hm
        exact List.mem_append.mpr (Or.inl hm)
      · intro hm
        rcases List.mem_append.mp hm with hm | hm
        · exact hm
        · have := List.eq_of_mem_replicate hm
          exfalso
          rw [h.len_eq] at hd
          omega
    · rw [if_neg (by omega), if_pos hd]
      rw [newVec_isSome]
      constructor
      · intro hm
        refine List.mem_append.mpr (Or.inr ?_)
        rw [List.mem_replicate]
        constructor
        · have := List.count_pos_iff_mem.mpr hm
          omega
        · have hle := h.len_eq
          omega
      · intro hm
        rcases List.mem_append.mp hm with hm | hm
        · have := h.posting_lt t d hm
          rw [h.len_eq] at hd
          omega
        · rw [List.mem_replicate] at hm
          exact List.count_pos_iff_mem.mp (by omega)
    · rw [if_neg (by omega), if_neg (by omega)]
      simp only [List.lookup_nil, Option.isSome_none, Bool.false_eq_true,
        false_iff]
      intro hm
      rcases List.mem_append.mp hm with hm | hm
      · have := h.posting_lt t d hm
        rw [h.len_eq] at hd
        omega
      · have := List.eq_of_mem_replicate hm
        rw [h.len_eq] at hd
        omega
  · intro d t
    rw [hgetD]
    rcases Nat.lt_trichotomy d s.vectors.length with hd | hd | hd
    · rw [if_pos hd]
      exact h.vec_pos d t
    · rw [if_neg (by omega), if_pos hd]
      intro hm
      rw [newVec_isSome] at hm
      rw [newVec_lookup]
      exact List.count_pos_iff_mem.mpr hm
    · rw [if_neg (by omega), if_neg (by omega)]
      simp

theorem indexInv_emptyIndex : IndexInv emptyIndex := by
  constructor
  · rfl
  · intro t i hi
    simp [posting, emptyIndex] at hi
  · intro d t
    simp [posting, emptyIndex]
  · intro d t
    simp [emptyIndex]

theorem indexInv_indexAll (docs : List String) : IndexInv (indexAll docs) := by
  have main : ∀ s, IndexInv s →
      IndexInv (docs.foldl (fun s d => (index_document s d).1) s) := by
    induction docs with
    | nil => exact fun s hs => hs
    | cons d rest ih =>
      intro s hs
      exact ih _ (indexInv_step s d hs)
  exact main emptyIndex indexInv_emptyIndex

theorem indexAll_documents (docs : List String) :
    (indexAll docs).documents = docs := by
  have main : ∀ s, (docs.foldl (fun s d => (index_document s d).1) s).documents =
      s.documents ++ docs := by
    induction docs with
    | nil => simp
    | cons d rest ih =>
      intro s
      rw [List.foldl_cons, ih, index_document_fst]
      simp
  simpa [emptyIndex] using main emptyIndex

end StateLemmas

section SearchLemmas

variable {α : Type} [Semiring α]

/-- When no query token is a key of the index, the candidate fold never
runs, so the search returns the empty list. -/
theorem vector_space_search_eq_nil (lg : ℕ → ℕ → α) (s : IrIndex) (q : String)
    (h : ∀ t ∈ patternSplit q, ¬ (s.index.lookup t).isSome) :
    vector_space_search lg s q = [] := by
  have hfil : (patternSplit q).filter (fun t => (s.index.lookup t).isSome) = [] := by
    rw [List.filter_eq_nil]
    intro a ha
    simpa using h a ha
  simp [vector_space_search, hfil, hitsLoop]

/-- Every entry recorded in the hits dictionary by the inner posting loop
carries the two-argument tf-idf list of the vector stored at its key. -/
theorem hitsLoopPosts_val (lg : ℕ → ℕ → α) (s : IrIndex)
    (qd : List (String × ℕ)) (posts : List ℕ) (hits : List (ℕ × List α))
    (h : ∀ p ∈ hits, p.2 = create_tfidf_list2 lg s qd (s.vectors.getD p.1 []))
    (p : ℕ × List α) (hp : p ∈ hitsLoopPosts lg s qd posts hits) :
    p.2 = create_tfidf_list2 lg s qd (s.vectors.getD p.1 []) := by
  induction posts generalizing hits with
  | nil => exact h p hp
  | cons post rest ih =>
    refine ih _ ?_ hp
    intro p' hp'
    by_cases hc : ((hits.lookup post).isSome : Prop)
    · simp only [hitsLoopPosts, List.foldl_cons, hc, if_true] at hp' ⊢
      exact h p' hp'
    · simp only [hitsLoopPosts, List.foldl_cons, hc, if_false] at hp' ⊢
      rcases mem_dictInsert hp' with h' | h'
      · exact h p' h'
      · rw [h']

/-- Extension of `hitsLoopPosts_val` to the outer loop over hitting
terms. -/
theorem hitsLoop_val (lg : ℕ → ℕ → α) (s : IrIndex)
    (qd : List (String × ℕ)) (terms : List String) (hits : List (ℕ × List α))
    (h : ∀ p ∈ hits, p.2 = create_tfidf_list2 lg s qd (s.vectors.getD p.1 []))
    (p : ℕ × List α) (hp : p ∈ hitsLoop lg s qd terms hits) :
    p.2 = create_tfidf_list2 lg s qd (s.vectors.getD p.1 []) := by
  induction terms generalizing hits with
  | nil => exact h p hp
  | cons term rest ih =>
    simp only [hitsLoop, List.foldl_cons] at hp
    refine ih _ ?_ hp
    intro p' hp'
    exact hitsLoopPosts_val lg s qd (posting s term) hits h p' hp'

/-- The two-argument tf-idf list does not depend on the values of `lg` at
arguments with a zero component, provided every term present in the given
document vector has a nonempty posting list and the corpus is nonempty. -/
theorem create_tfidf_list2_congr (lg lg' : ℕ → ℕ → α) (s : IrIndex)
    (qd dv : List (String × ℕ))
    (hok : ∀ t, (dv.lookup t).isSome →
      0 < s.documents.length ∧ 0 < (posting s t).length)
    (h : ∀ n d, 0 < n → 0 < d → lg n d = lg' n d) :
    create_tfidf_list2 lg s qd dv = create_tfidf_list2 lg' s qd dv := by
  unfold create_tfidf_list2
  apply List.map_congr_left
  intro e _
  by_cases hc : ((dv.lookup e.1).isSome : Prop)
  · rcases hok e.1 hc with ⟨h1, h2⟩
    simp only [hc, if_true]
    rw [h s.documents.length (posting s e.1).length h1 h2]
  · simp [hc]

/-- For a state satisfying the index invariant, every lookup the hits loops
perform goes through a posting-list member, so every term found in a fetched
vector has a nonempty posting list and the corpus is nonempty. -/
theorem indexInv_hok (s : IrIndex) (hs : IndexInv s) (post : ℕ)
    (hpost : ∃ u, post ∈ posting s u) (t : String)
    (hsome : ((s.vectors.getD post []).lookup t).isSome) :
    0 < s.documents.length ∧ 0 < (posting s t).length := by
  rcases hpost with ⟨u, hu⟩
  have hmem : post ∈ posting s t := (hs.vec_mem_iff post t).mp hsome
  exact ⟨lt_of_le_of_lt (Nat.zero_le post) (hs.posting_lt u post hu),
    List.length_pos_of_mem hmem⟩

theorem hitsLoopPosts_congr (lg lg' : ℕ → ℕ → α) (s : IrIndex)
    (qd : List (String × ℕ)) (posts : List ℕ)
    (hval : ∀ post ∈ posts,
      create_tfidf_list2 lg s qd (s.vectors.getD post []) =
        create_tfidf_list2 lg' s qd (s.vectors.getD post []))
    (hits : List (ℕ × List α)) :
    hitsLoopPosts lg s qd posts hits = hitsLoopPosts lg' s qd posts hits := by
  unfold hitsLoopPosts
  apply foldl_congr_mem
  intro acc post hpost
  rw [hval post hpost]

theorem hitsLoop_congr (lg lg' : ℕ → ℕ → α) (s : IrIndex)
    (qd : List (String × ℕ)) (terms : List String)
    (hval : ∀ term ∈ terms, ∀ post ∈ posting s term,
      create_tfidf_list2 lg s qd (s.vectors.getD post []) =
        create_tfidf_list2 lg' s qd (s.vectors.getD post []))
    (hits : List (ℕ × List α)) :
    hitsLoop lg s qd terms hits = hitsLoop lg' s qd terms hits := by
  unfold hitsLoop
  apply foldl_congr_mem
  intro acc term hterm
  exact hitsLoopPosts_congr lg lg' s qd (posting s term) (hval term hterm) acc

/-- On a state satisfying the index invariant the whole search depends on
`lg` only through its values at positive arguments. -/
theorem vector_space_search_congr (lg lg' : ℕ → ℕ → α) (s : IrIndex)
    (hs : IndexInv s) (q : String)
    (h : ∀ n d, 0 < n → 0 < d → lg n d = lg' n d) :
    vector_space_search lg s q = vector_space_search lg' s q := by
  unfold vector_space_search
  dsimp only
  rw [hitsLoop_congr lg lg' s (create_tf_dictionary q)
    ((patternSplit q).filter (fun t => (s.index.lookup t).isSome))]
  intro term hterm post hpost
  apply create_tfidf_list2_congr lg lg' s (create_tf_dictionary q)
    (s.vectors.getD post []) ?_ h
  intro t hsome
  exact indexInv_hok s hs post ⟨term, hpost⟩ t hsome

end SearchLemmas

/-- The ten-document wine corpus of the notebook's examples section. -/
def corpus10 : List String :=
  [ "Bruno Clair Chambertin Clos de Beze 2001, Bourgogne, France"
  , "Bruno Clair Chambertin Clos de Beze 2005, Bourgogne, France"
  , "Bruno Clair Clos Saint Jaques 2001, Bourgogne, France"
  , "Bruno Clair Clos Saint Jaques 2002, Bourgogne, France"
  , "Bruno Clair Clos Saint Jaques 2005, Bourgogne, France"
  , "Coche-Dury Bourgogne Chardonay 2005, Bourgogne, France"
  , "Chateau Margaux 1982, Bordeaux, France"
  , "Chateau Margaux 1996, Bordeaux, France"
  , "Chateau Latour 1982, Bordeaux, France"
  , "Domaine Raveneau Le Clos 2001, Bourgogne, France" ]

section ConcreteEvaluation

variable {α : Type} [Semiring α]

/-- Evaluation of the notebook's `"Bordeaux"` query on the reference
corpus, parametric in the idf function: docs 6, 7, 8 hit, each with raw
query tf 1, raw document tf 1 and `df = 3` over `N = 10`. -/
theorem search_corpus10_Bordeaux (lg : ℕ → ℕ → α) :
    vector_space_search lg (indexAll corpus10) "Bordeaux" =
      [ (((1:ℕ):α) * (((1:ℕ):α) * lg 10 3) + 0, "Chateau Margaux 1982, Bordeaux, France")
      , (((1:ℕ):α) * (((1:ℕ):α) * lg 10 3) + 0, "Chateau Margaux 1996, Bordeaux, France")
      , (((1:ℕ):α) * (((1:ℕ):α) * lg 10 3) + 0, "Chateau Latour 1982, Bordeaux, France") ] := rfl

/-- Evaluation of the notebook's `"hello Bordeaux"` query on the reference
corpus: the absent dimension `"hello"` contributes a zero addend to each
score. -/
theorem search_corpus10_helloBordeaux (lg : ℕ → ℕ → α) :
    vector_space_search lg (indexAll corpus10) "hello Bordeaux" =
      [ (((1:ℕ):α) * 0 + (((1:ℕ):α) * (((1:ℕ):α) * lg 10 3) + 0), "Chateau Margaux 1982, Bordeaux, France")
      , (((1:ℕ):α) * 0 + (((1:ℕ):α) * (((1:ℕ):α) * lg 10 3) + 0), "Chateau Margaux 1996, Bordeaux, France")
      , (((1:ℕ):α) * 0 + (((1:ℕ):α) * (((1:ℕ):α) * lg 10 3) + 0), "Chateau Latour 1982, Bordeaux, France") ] := rfl

/-- Evaluation of query `"ell"` on the two-document corpus
`["ell", "x"]`. -/
theorem search_ellx_ell (lg : ℕ → ℕ → α) :
    vector_space_search lg (indexAll ["ell", "x"]) "ell" =
      [(((1:ℕ):α) * (((1:ℕ):α) * lg 2 1) + 0, "ell")] := rfl

/-- Evaluation of query `"hello ell"` on the corpus `["ell", "x"]`: the
query tf of `"ell"` is `"hello ell".count("ell") = 2` because `str.count`
counts substring occurrences and `"hello"` contains `"ell"`. -/
theorem search_ellx_helloell (lg : ℕ → ℕ → α) :
    vector_space_search lg (indexAll ["ell", "x"]) "hello ell" =
      [(((1:ℕ):α) * 0 + (((2:ℕ):α) * (((1:ℕ):α) * lg 2 1) + 0), "ell")] := rfl

/-- Evaluation of the empty query after indexing the empty document: the
tokenizer maps `""` to the single token `""`, which is in the index, so one
result is returned. -/
theorem search_emptydoc_emptyquery (lg : ℕ → ℕ → α) :
    vector_space_search lg (indexAll [""]) "" =
      [(((1:ℕ):α) * (((1:ℕ):α) * lg 1 1) + 0, "")] := rfl

/-- Evaluation of query `"a"` on the corpus `["a", "b"]`: one hit with
`tf = 1`, `df = 1`, `N = 2`. -/
theorem search_ab_a (lg : ℕ → ℕ → α) :
    vector_space_search lg (indexAll ["a", "b"]) "a" =
      [(((1:ℕ):α) * (((1:ℕ):α) * lg 2 1) + 0, "a")] := rfl

/-- The spec-mandated query tf-idf vector for query `"a"` on the corpus
`["a", "b"]` carries the idf weight `lg 2 1`, unlike the code's raw tf
list. -/
theorem spec_query_tfidf_ab_a (lg : ℕ → ℕ → α) :
    spec_query_tfidf lg (indexAll ["a", "b"]) (create_tf_dictionary "a") =
      [((1:ℕ):α) * lg 2 1] := rfl

/-- The code's one-argument tf-idf list for query `"a"` is the raw tf
list. -/
theorem code_query_list_a :
    create_tfidf_list1 α (create_tf_dictionary "a") = [((1:ℕ):α)] := rfl

/-- The two-argument tf-idf list of document 0 of `["a", "b"]` over the
dimensions of query `"a"`. -/
theorem doc_list_ab_a (lg : ℕ → ℕ → α) :
    create_tfidf_list2 lg (indexAll ["a", "b"]) (create_tf_dictionary "a")
        ((indexAll ["a", "b"]).vectors.getD 0 []) =
      [((1:ℕ):α) * lg 2 1] := rfl

end ConcreteEvaluation

/-- Per-term weight that the code's two-argument `create_tfidf_list` gives
to a query dimension for the candidate at position `post`: the raw document
tf times `lg N df` when the term occurs in the candidate's vector, else
zero.  Note there is no factor for the query side here. -/
def docWeight {α : Type} [Semiring α] (lg : ℕ → ℕ → α) (s : IrIndex)
    (post : ℕ) (t : String) : α :=
  if (((s.vectors.getD post []).lookup t).isSome) then
    (((s.vectors.getD post []).lookup t).getD 0 : α) *
      lg s.documents.length (posting s t).length
  else 0

theorem create_tfidf_list2_eq_map_docWeight {α : Type} [Semiring α]
    (lg : ℕ → ℕ → α) (s : IrIndex) (qd : List (String × ℕ)) (post : ℕ) :
    create_tfidf_list2 lg s qd (s.vectors.getD post []) =
      qd.map (fun e => docWeight lg s post e.1) := rfl

/-- Lookup characterization of the query tf-dictionary fold: an existing
entry is never overwritten, and the first occurrence of a token inserts its
Python substring count. -/
theorem tf_fold_lookup (q : String) (toks : List String)
    (res : List (String × ℕ)) (t : String) :
    ((toks.foldl
        (fun res term =>
          if (res.lookup term).isSome then res
          else dictInsert res term (pyCount q term)) res).lookup t) =
      if (res.lookup t).isSome then res.lookup t
      else if t ∈ toks then some (pyCount q t) else none := by
  induction toks generalizing res with
  | nil =>
    by_cases h : ((res.lookup t).isSome : Prop)
    · simp [h]
    · simp [h, Option.not_isSome_iff_eq_none.mp h]
  | cons term rest ih =>
    simp only [List.foldl_cons]
    rw [ih]
    by_cases hA : ((res.lookup t).isSome : Prop)
    · have hres' :
          ((if (res.lookup term).isSome then res
            else dictInsert res term (pyCount q term)).lookup t) = res.lookup t := by
        by_cases hs : ((res.lookup term).isSome : Prop)
        · simp [hs]
        · have hne : ¬ t = term := by
            intro he
            subst he
            exact hs hA
          simp [hs, lookup_dictInsert, hne]
      rw [hres']
      simp [hA]
    · have hnone : res.lookup t = none := Option.not_isSome_iff_eq_none.mp hA
      by_cases hel : t = term
      · subst hel
        simp [hnone, lookup_dictInsert]
      · have hres' :
            ((if (res.lookup term).isSome then res
              else dictInsert res term (pyCount q term)).lookup t) = res.lookup t := by
          by_cases hs : ((res.lookup term).isSome : Prop)
          · simp [hs]
          · simp [hs, lookup_dictInsert, hel]
        rw [hres']
        simp only [hnone, Option.isSome_none, Bool.false_eq_true, if_false,
          List.mem_cons]
        by_cases hr : t ∈ rest
        · simp [hr, hel]
        · simp [hr, hel]

section Claims

/-- C1, counterexample: on the corpus `["a", "b"]` with query `"a"`
(`N = 2`, `df = 1`, so `idf = ln 2 ∉ {0, 1}`), the query vector the code
builds is the raw tf list `[1]`, not the spec's weighted vector
`[1 * ln(2/1)]`, and the score the search returns (`ln 2`) differs from the
dot product of the spec's weighted query vector with the candidate's tf-idf
vector (`(ln 2)²`). -/
theorem C1_counterexample :
    create_tfidf_list1 ℝ (create_tf_dictionary "a") ≠
      spec_query_tfidf realLg (indexAll ["a", "b"]) (create_tf_dictionary "a") ∧
    (vector_space_search realLg (indexAll ["a", "b"]) "a").map Prod.fst ≠
      [dotList
        (spec_query_tfidf realLg (indexAll ["a", "b"]) (create_tf_dictionary "a"))
        (create_tfidf_list2 realLg (indexAll ["a", "b"]) (create_tf_dictionary "a")
          ((indexAll ["a", "b"]).vectors.getD 0 []))] := by
  have hlog2 : realLg 2 1 = Real.log 2 := by
    simp [realLg]
  have hl0 : 0 < Real.log 2 := Real.log_pos (by norm_num)
  have hl1 : Real.log 2 < 1 := by
    rw [Real.log_lt_iff_lt_exp (by norm_num)]
    calc (2:ℝ) < 2.7182818283 := by norm_num
    _ < Real.exp 1 := Real.exp_one_gt_d9
  constructor
  · rw [code_query_list_a, spec_query_tfidf_ab_a realLg, hlog2]
    simp only [Nat.cast_one, one_mul, List.cons.injEq, ne_eq, not_and]
    intro h
    exact absurd h.symm (ne_of_lt hl1)
  · rw [search_ab_a realLg, spec_query_tfidf_ab_a realLg, doc_list_ab_a realLg, hlog2]
    simp only [dotList, List.map_cons, List.map_nil, List.zipWith_cons_cons,
      List.zipWith_nil_right, List.sum_cons, List.sum_nil, Nat.cast_one,
      one_mul, add_zero, List.cons.injEq, ne_eq, not_and]
    intro h
    have : Real.log 2 * Real.log 2 < Real.log 2 := by nlinarith
    intro _
    exact absurd h (ne_of_gt this)

/-- C1, amended: the query vector the code compares against is the raw
term-frequency list with no idf weighting (the one-argument
`create_tfidf_list` branch), and every result of `vector_space_search` is
a pair whose score is `Σ` over the query dictionary entries of
`Q_tf[term] * docWeight(term)`, where `docWeight` carries the single idf
factor `D_tf[term] * ln(N/df(term))` (or 0 when the term is absent from the
candidate), and whose text is the document stored at the candidate's
position. -/
theorem C1_amended_score {α : Type} [Semiring α] (lg : ℕ → ℕ → α)
    (s : IrIndex) (q : String) (sc : α) (doc : String)
    (h : (sc, doc) ∈ vector_space_search lg s q) :
    ∃ post, doc = s.documents.getD post "" ∧
      sc = ((create_tf_dictionary q).map
        (fun e => (e.2 : α) * docWeight lg s post e.1)).sum := by
  unfold vector_space_search at h
  dsimp only at h
  rcases List.mem_map.mp h with ⟨p, hp, hep⟩
  have hval := hitsLoop_val lg s (create_tf_dictionary q) _ [] (by simp) p hp
  have hsc : dotList (create_tfidf_list1 α (create_tf_dictionary q)) p.2 = sc :=
    congrArg Prod.fst hep
  have hdoc : s.documents.getD p.1 "" = doc := congrArg Prod.snd hep
  refine ⟨p.1, hdoc.symm, ?_⟩
  rw [← hsc, hval, create_tfidf_list2_eq_map_docWeight]
  exact dotList_map_map (create_tf_dictionary q) _ _

/-- C1, witness for the amended theorem at the one-document corpus `["a"]`
with query `"a"` and the constant idf function 1 over `ℤ`. -/
theorem C1_amended_score_witness :
    ∃ post, "a" = ((indexAll ["a"]).documents.getD post "") ∧
      (1:ℤ) = ((create_tf_dictionary "a").map
        (fun e => (e.2 : ℤ) * docWeight (fun _ _ => 1) (indexAll ["a"]) post e.1)).sum :=
  C1_amended_score (fun _ _ => 1) (indexAll ["a"]) "a" 1 "a" (by decide)

/-- C2, counterexample: indexing the document `"a a"` into a fresh index
puts the document id 0 twice into the posting list of `"a"` — posting
insertion happens once per occurrence, not once per document. -/
theorem C2_counterexample :
    ¬ ((posting (index_document emptyIndex "a a").1 "a").count 0 ≤ 1) := by
  decide

/-- C2, amended: `index_document` appends the new document's position to a
term's posting list once per occurrence of the term in the document's token
sequence (so a duplicate-free posting entry per document holds only for
terms that occur at most once). -/
theorem C2_amended_postings (s : IrIndex) (doc t : String) :
    posting (index_document s doc).1 t =
      posting s t ++
        List.replicate ((patternSplit doc).count t) s.documents.length :=
  posting_index_document s doc t

/-- C3, counterexample: for the query `"a aa"` the code maps the token
`"a"` to `"a aa".count("a") = 3` (substring occurrences in the raw query
text), while the token sequence `["a", "aa"]` contains `"a"` once; hence
the built dictionary differs from the spec's token-count dictionary. -/
theorem C3_counterexample :
    (create_tf_dictionary "a aa").lookup "a" ≠
      some ((patternSplit "a aa").count "a") ∧
    create_tf_dictionary "a aa" ≠ spec_tf_dictionary "a aa" := by
  constructor
  · decide
  · decide

/-- C3, amended: the query dictionary maps each distinct token of the
tokenized query to the number of occurrences of that token as a substring
of the raw query string (Python `str.count`), not to its count in the token
sequence; tokens are never remapped after their first occurrence. -/
theorem C3_amended_lookup (q t : String) :
    (create_tf_dictionary q).lookup t =
      if t ∈ patternSplit q then some (pyCount q t) else none := by
  unfold create_tf_dictionary
  rw [tf_fold_lookup q (patternSplit q) [] t]
  simp

/-- C4: searching `"Bordeaux"` on the reference 10-document corpus, where
exactly 3 documents contain the term (each with vector count at most 1),
returns exactly those 3 documents, each with score `ln(10/3)`, and no
others. -/
theorem C4_worked_scenario :
    corpus10.length = 10 ∧
    ((indexAll corpus10).vectors.filter
      (fun v => (v.lookup "Bordeaux").isSome)).length = 3 ∧
    ((indexAll corpus10).vectors.all
      (fun v => ((v.lookup "Bordeaux").getD 0) ≤ 1)) = true ∧
    vector_space_search realLg (indexAll corpus10) "Bordeaux" =
      [ (Real.log (10/3), "Chateau Margaux 1982, Bordeaux, France")
      , (Real.log (10/3), "Chateau Margaux 1996, Bordeaux, France")
      , (Real.log (10/3), "Chateau Latour 1982, Bordeaux, France") ] := by
  refine ⟨by decide, by decide, by decide, ?_⟩
  rw [search_corpus10_Bordeaux realLg]
  norm_num [realLg]

/-- C5, counterexample: `index_document` on a fresh index does not return
the newly assigned document id 0 — the Python method has no `return`
statement, so it returns `None`. -/
theorem C5_counterexample :
    (index_document emptyIndex "abc").2 ≠ some emptyIndex.documents.length := by
  decide

/-- C5, amended: `index_document` returns no value (`None`); internally it
appends the text at position `len(documents) - 1` = the number of documents
indexed before the call, which is the id recorded in the posting lists. -/
theorem C5_amended_return (s : IrIndex) (doc : String) :
    (index_document s doc).2 = none ∧
    (index_document s doc).1.documents = s.documents ++ [doc] ∧
    (index_document s doc).1.documents.getD s.documents.length "" = doc := by
  refine ⟨index_document_snd s doc, by rw [index_document_fst], ?_⟩
  rw [index_document_fst]
  show (s.documents ++ [doc]).getD s.documents.length "" = doc
  rw [List.getD_append_right _ _ _ _ (le_refl _)]
  simp

/-- C6: after any sequence of `index_document` calls from a fresh index, a
term has a nonzero count in a document's stored vector exactly when that
document's id occurs in the term's posting list. -/
theorem C6_posting_vector_consistency (docs : List String) (d : ℕ) (t : String) :
    tfOf (indexAll docs) d t ≠ 0 ↔ d ∈ posting (indexAll docs) t := by
  have hinv := indexInv_indexAll docs
  constructor
  · intro hne
    have hsome : (((indexAll docs).vectors.getD d []).lookup t).isSome := by
      by_contra hns
      have h0 : ((indexAll docs).vectors.getD d []).lookup t = none :=
        Option.not_isSome_iff_eq_none.mp hns
      rw [tfOf, h0] at hne
      simp at hne
    exact (hinv.vec_mem_iff d t).mp hsome
  · intro hmem
    have hsome := (hinv.vec_mem_iff d t).mpr hmem
    have hpos := hinv.vec_pos d t hsome
    rw [tfOf]
    omega

/-- C7, counterexample: after indexing the empty document the empty-string
token is in the index (`pattern.split("")` yields `[""]`), so searching the
empty query returns one result rather than the empty list. -/
theorem C7_counterexample :
    vector_space_search realLg (indexAll [""]) "" ≠ [] := by
  rw [search_emptydoc_emptyquery realLg]
  simp

/-- C7, amended: searching the empty query returns the empty result
provided the empty-string token is not a key of the index (after indexing a
document with a leading/trailing separator or an empty document it is one,
and the empty query then matches); a query all of whose tokens are absent
from the index always returns the empty result. -/
theorem C7_amended_empty {α : Type} [Semiring α] (lg : ℕ → ℕ → α)
    (s : IrIndex) (q : String) :
    (¬ (s.index.lookup "").isSome → vector_space_search lg s "" = []) ∧
    ((∀ t ∈ patternSplit q, ¬ (s.index.lookup t).isSome) →
      vector_space_search lg s q = []) := by
  constructor
  · intro h
    apply vector_space_search_eq_nil
    intro t ht
    have he : patternSplit "" = [""] := rfl
    rw [he, List.mem_singleton] at ht
    rw [ht]
    exact h
  · exact vector_space_search_eq_nil lg s q

/-- C7, witness for the amended theorem: on the corpus `["a"]` both the
empty query and the all-absent query `"zzz"` return the empty result. -/
theorem C7_amended_empty_witness :
    vector_space_search (fun _ _ => (0:ℤ)) (indexAll ["a"]) "" = [] ∧
    vector_space_search (fun _ _ => (0:ℤ)) (indexAll ["a"]) "zzz" = [] :=
  ⟨(C7_amended_empty (fun _ _ => (0:ℤ)) (indexAll ["a"]) "zzz").1 (by decide),
   (C7_amended_empty (fun _ _ => (0:ℤ)) (indexAll ["a"]) "zzz").2 (by decide)⟩

/-- C8: on any state reachable by indexing documents into a fresh index,
the search result depends on the idf function only through its values at
positive corpus sizes and positive document frequencies (so
`ln(N/df)` is never evaluated at `df = 0` or `N = 0`), and with zero
documents indexed every search returns the empty result without consulting
the idf function at all. -/
theorem C8_idf_safety {α : Type} [Semiring α] (lg lg' : ℕ → ℕ → α)
    (docs : List String) (q : String)
    (h : ∀ n d, 0 < n → 0 < d → lg n d = lg' n d) :
    vector_space_search lg (indexAll docs) q =
      vector_space_search lg' (indexAll docs) q ∧
    ((indexAll docs).documents.length = 0 →
      vector_space_search lg (indexAll docs) q = []) := by
  constructor
  · exact vector_space_search_congr lg lg' (indexAll docs)
      (indexInv_indexAll docs) q h
  · intro h0
    have hd : docs = [] := by
      rw [indexAll_documents docs] at h0
      exact List.length_eq_zero.mp h0
    subst hd
    apply vector_space_search_eq_nil
    intro t ht
    simp [indexAll, emptyIndex]

/-- C8, witness: two idf functions over `ℤ` that agree at positive
arguments but differ at zero arguments produce the same result for the
query `"a"` on the corpus `["a"]`. -/
theorem C8_idf_safety_witness :
    vector_space_search (fun n d => ((n * d : ℕ) : ℤ)) (indexAll ["a"]) "a" =
      vector_space_search
        (fun n d => if 0 < n ∧ 0 < d then ((n * d : ℕ) : ℤ) else 37)
        (indexAll ["a"]) "a" :=
  (C8_idf_safety _ _ ["a"] "a"
    (fun n d hn hd => (if_pos ⟨hn, hd⟩).symm)).1

/-- C9, counterexample: on the corpus `["ell", "x"]`, adding the
corpus-absent term `"hello"` to the query `"ell"` changes the result,
because the query tf of `"ell"` is computed by `str.count` on the raw query
text and `"hello"` contains `"ell"` as a substring (score doubles from
`ln 2` to `2·ln 2`). -/
theorem C9_counterexample :
    vector_space_search realLg (indexAll ["ell", "x"]) "hello ell" ≠
      vector_space_search realLg (indexAll ["ell", "x"]) "ell" := by
  rw [search_ellx_helloell realLg, search_ellx_ell realLg]
  have hlog2 : realLg 2 1 = Real.log 2 := by simp [realLg]
  rw [hlog2]
  have hl0 : 0 < Real.log 2 := Real.log_pos (by norm_num)
  simp only [List.cons.injEq, Prod.mk.injEq, ne_eq, not_and, and_true]
  intro h
  push_cast at h
  nlinarith

/-- C9, amended: adding an absent term can change scores when the added
text alters another query term's substring count in the raw query string;
in the notebook's own instance no such interference occurs and searching
`"hello Bordeaux"` on the reference corpus yields exactly the results of
searching `"Bordeaux"`. -/
theorem C9_amended_instance :
    vector_space_search realLg (indexAll corpus10) "hello Bordeaux" =
      vector_space_search realLg (indexAll corpus10) "Bordeaux" := by
  rw [search_corpus10_helloBordeaux realLg, search_corpus10_Bordeaux realLg]
  norm_num

/-- C10: after any sequence of `index_document` calls from a fresh index,
the document store and the vector store have the same length and every id
in any posting list is a valid index into both, so the lookups
`self.vectors[post]` and `self.documents[post]` made by the search stay in
bounds. -/
theorem C10_bounds (docs : List String) :
    (indexAll docs).vectors.length = (indexAll docs).documents.length ∧
    ∀ t i, i ∈ posting (indexAll docs) t →
      i < (indexAll docs).documents.length ∧
      i < (indexAll docs).vectors.length := by
  have hinv := indexInv_indexAll docs
  refine ⟨hinv.len_eq, ?_⟩
  intro t i hi
  have hlt := hinv.posting_lt t i hi
  exact ⟨hlt, by rw [hinv.len_eq]; exact hlt⟩

end Claims
